import Mathlib

/-!
Verification of the NCLEX study-materials storefront (Telegram bot + admin
HTTP API). The JavaScript sources are shallowly embedded as executable Lean
functions over explicit state:

* string helpers model the JS operations used by the code
  (`String.prototype.includes` as substring search on lowered char lists,
  `split` on a separator class, `trim`, `parseInt`, `parseFloat`);
* the catalog store (MongoDB collection) is a `List Material` in insertion
  order; `find` with a filter is `List.filter`, `sort({createdAt:-1})` is a
  stable insertion sort by descending `createdAt` (JS array sort is stable,
  and so is the store sort for our purposes);
* GridFS is a `List GridFile`; the conversational session map is modelled
  per user as an `Option` of a session record.

All definitions are total and executable so that concrete scenarios can be
settled by `decide` / `rfl`.
-/

namespace Student

/-- Whitespace characters recognised by the model of JS `trim` and the
    `\s` class of the tokenizer regex (ASCII scope). -/
def isWS (c : Char) : Bool :=
  c == ' ' || c == '\t' || c == '\n' || c == '\r'

/-- Separator class of the tokenizer regex `[\s\.,!?;:]`. -/
def isSep (c : Char) : Bool :=
  isWS c || c == '.' || c == ',' || c == '!' || c == '?' || c == ';' || c == ':'

/-- Decimal digit test (JS `[0-9]`). -/
def isDig (c : Char) : Bool :=
  '0' ≤ c && c ≤ '9'

/-- Does `l` start with `w`? (model of a substring match anchored at the
    head of `l`). -/
def startsWith : List Char → List Char → Bool
  | _, [] => true
  | [], _ :: _ => false
  | a :: l, b :: w => a == b && startsWith l w

/-- Does `l` contain `w` as a contiguous run? This models
    `String.prototype.includes` (and an unanchored regex literal match). -/
def containsSub : List Char → List Char → Bool
  | [], w => w.isEmpty
  | a :: l, w => startsWith (a :: l) w || containsSub l w

/-- Lower-cased character list of a string: models
    `s.toLowerCase()` (ASCII scope). -/
def lcChars (s : String) : List Char :=
  s.data.map Char.toLower

/-- Model of JS `String.prototype.trim` on a char list. -/
def trimWS (l : List Char) : List Char :=
  ((l.dropWhile isWS).reverse.dropWhile isWS).reverse

/-- Split on single separator characters. A run of `n` separators yields
    `n - 1` empty pieces in between, where the JS regex `[...]+` collapses
    the run; both agree after the `length > 2` filter applied by every
    caller, and for `split(',')` (no quantifier) this is exact. -/
def splitAux (sep : Char → Bool) : List Char → List Char → List (List Char)
  | [], acc => [acc.reverse]
  | c :: cs, acc =>
    if sep c then acc.reverse :: splitAux sep cs []
    else splitAux sep cs (c :: acc)

/-- Split a char list at every character satisfying `sep`. -/
def splitChars (sep : Char → Bool) (l : List Char) : List (List Char) :=
  splitAux sep l []

/-- Keep the first occurrence of each element (models `[...new Set(xs)]`). -/
def dedupAux : List (List Char) → List (List Char) → List (List Char)
  | _, [] => []
  | seen, a :: as =>
    if a ∈ seen then dedupAux seen as
    else a :: dedupAux (a :: seen) as

/-- First-occurrence deduplication. -/
def dedupFirst (l : List (List Char)) : List (List Char) :=
  dedupAux [] l

/-- Numeric value of a digit run. -/
def digitsVal : List Char → Nat → Nat
  | [], acc => acc
  | c :: cs, acc => digitsVal cs (acc * 10 + (c.toNat - '0'.toNat))

/-- Model of JS `parseInt(s)` (base 10): trims whitespace, takes an
    optional sign and the longest leading digit run; `none` models `NaN`.
    Hex prefixes and other exotica are outside the modelled scope. -/
def parseIntJS (s : String) : Option Int :=
  let cs := trimWS s.data
  match cs with
  | '-' :: rest =>
    let ds := rest.takeWhile isDig
    if ds.isEmpty then none else some (-(digitsVal ds 0 : Int))
  | '+' :: rest =>
    let ds := rest.takeWhile isDig
    if ds.isEmpty then none else some (digitsVal ds 0 : Int)
  | _ =>
    let ds := cs.takeWhile isDig
    if ds.isEmpty then none else some (digitsVal ds 0 : Int)

/-- Model of JS `parseFloat(s)` restricted to plain decimal notation
    (optional sign, integer part, optional fraction); `none` models `NaN`.
    Exponents and `Infinity` are outside the modelled scope. -/
def parseFloatJS (s : String) : Option ℚ :=
  let cs := s.data.dropWhile isWS
  let signed : ℚ × List Char :=
    match cs with
    | '-' :: t => (-1, t)
    | '+' :: t => (1, t)
    | _ => (1, cs)
  let ip := signed.2.takeWhile isDig
  let rest := signed.2.dropWhile isDig
  let fp := match rest with
    | '.' :: t => t.takeWhile isDig
    | _ => []
  if ip.isEmpty && fp.isEmpty then none
  else some (signed.1 * ((digitsVal ip 0 : ℚ) + (digitsVal fp 0 : ℚ) / (10 : ℚ) ^ fp.length))

/-- Insert into a sorted list, keeping earlier (already-inserted) elements
    first among `le`-ties; building block of the stable sort below. -/
def insertLe {α : Type} (le : α → α → Bool) (a : α) : List α → List α
  | [] => [a]
  | b :: l => if le a b then a :: b :: l else b :: insertLe le a l

/-- Stable insertion sort: models the stable JS `Array.prototype.sort`
    and the store's `sort` modifier. `le a b` means `a` may be placed
    before `b`. -/
def stableSort {α : Type} (le : α → α → Bool) : List α → List α
  | [] => []
  | a :: l => insertLe le a (stableSort le l)

/-! ## Data model (mirrors `models/material.model.js`, `models/user.model.js`
    and the GridFS boundary). Store-assigned ids and `createdAt` timestamps
    are opaque naturals; `revenue` is a rational (JS number). -/

/-- A catalog record (`Material` schema, NCLEX variant). -/
structure Material where
  id : Nat
  title : String
  topics : List String
  category : String
  description : Option String
  keywords : List String
  price : String
  fileId : Nat
  fileName : Option String
  fileSize : Nat
  downloads : Nat
  purchases : Nat
  revenue : ℚ
  createdAt : Nat
deriving DecidableEq, Inhabited

/-- A stored binary (GridFS file): `length` is the assembled byte size. -/
structure GridFile where
  id : Nat
  filename : String
  length : Nat
deriving DecidableEq, Inhabited

/-- One entry of a user's download history (`downloadedMaterials` push).
    The wall-clock `downloadedAt` field is outside the modelled scope. -/
structure DLEntry where
  materialId : Nat
  title : String
  category : String
  price : String
deriving DecidableEq, Inhabited

/-- A user record (fields relevant to delivery). -/
structure User where
  telegramId : String
  name : String
  downloadedMaterials : List DLEntry
deriving DecidableEq, Inhabited

/-! ## Relevance search (`services/ai.service.js`) -/

/-- The fixed four-value category enumeration, in declaration order. -/
def nclexCategoryNames : List String :=
  ["Safe and Effective Care Environment",
   "Health Promotion and Maintenance",
   "Psychosocial Integrity",
   "Physiological Integrity"]

/-- Per-category keyword table (`NCLEX_CATEGORIES`). -/
def nclexCategoryKeywords (c : String) : List String :=
  if c = "Safe and Effective Care Environment" then
    ["patient safety", "infection control", "legal responsibilities", "ethics",
     "delegation", "prioritization", "management of care", "emergency preparedness",
     "HIPAA", "patient rights", "confidentiality"]
  else if c = "Health Promotion and Maintenance" then
    ["growth and development", "prenatal care", "postnatal care",
     "health screening", "immunizations", "lifestyle modification",
     "health education", "disease prevention"]
  else if c = "Psychosocial Integrity" then
    ["mental health", "depression", "anxiety", "schizophrenia",
     "crisis intervention", "substance abuse", "therapeutic communication",
     "coping mechanisms", "stress management", "abuse", "neglect", "grief"]
  else if c = "Physiological Integrity" then
    ["medical-surgical nursing", "pharmacology", "drug actions",
     "side effects", "IV therapy", "fluids", "oxygenation",
     "respiratory care", "cardiac disorders", "renal disorders",
     "neurological disorders", "endocrine disorders",
     "fluid and electrolyte balance", "acute illness",
     "chronic illness management", "wound care"]
  else []

/-- The stop-word list of `extractNCLEXSearchTokens`, verbatim
    (duplicates included; only membership is ever used). -/
def stopWords : List String :=
  ["i", "me", "my", "the", "a", "an", "and", "or", "but", "in", "on", "at",
   "to", "for", "of", "with", "by", "as", "is", "are", "was", "were", "be",
   "been", "being", "have", "has", "had", "do", "does", "did", "will", "would",
   "could", "should", "may", "might", "must", "can", "shall", "that", "this",
   "these", "those", "am", "looking", "for", "with", "topics", "in", "currently",
   "at", "want", "need", "like", "about", "some", "any", "help", "study", "learn",
   "please", "could", "would", "should", "material", "materials", "exam", "exams",
   "paper", "papers", "test", "tests", "preparing", "studying", "buy", "purchase",
   "nclex", "rn", "pn"]

/-- Stop words as lower-case char lists (they are already lower case). -/
def stopWordsL : List (List Char) :=
  stopWords.map String.data

/-- Token extraction (`extractNCLEXSearchTokens`). A category keyword
    found in the (lowered) query by the case-insensitive regex is pushed in
    its lower-case form; since the query is lowered first, that is the
    lowered keyword itself, and the global flag only produces duplicates
    that the trailing `Set` collapses, so one occurrence per keyword is
    recorded. -/
def extractNCLEXSearchTokens (userQuery : String) (category : Option String) :
    List (List Char) :=
  let query := trimWS (lcChars userQuery)
  let categoryPhrases :=
    match category with
    | none => []
    | some c =>
      (nclexCategoryKeywords c).filterMap fun kw =>
        let k := lcChars kw
        if containsSub query k then some k else none
  let words :=
    (((splitChars isSep query).filter fun w => 2 < w.length).filter
        fun w => !(stopWordsL.contains w)).filter
      fun w => !(categoryPhrases.any fun p => containsSub p w || containsSub w p)
  dedupFirst (categoryPhrases ++ words)

/-- Case-insensitive token hit on a single string field. -/
def fieldHit (field : String) (tok : List Char) : Bool :=
  containsSub (lcChars field) tok

/-- Number of topics-array entries containing the token. -/
def topicHits (m : Material) (tok : List Char) : Nat :=
  (m.topics.filter fun tp => containsSub (lcChars tp) tok).length

/-- Keyword hit (`material.keywords.some(kw => kw.toLowerCase().includes(token))`). -/
def keywordHit (m : Material) (tok : List Char) : Bool :=
  m.keywords.any fun kw => containsSub (lcChars kw) tok

/-- Description hit (`material.description && ... .includes(token)`). -/
def descriptionHit (m : Material) (tok : List Char) : Bool :=
  match m.description with
  | none => false
  | some d => containsSub (lcChars d) tok

/-- Score contributed by one token (weights 5/6/4-per-topic/4/2 from
    `scoreNCLEXRelevance`). -/
def tokenPoints (m : Material) (tok : List Char) : Nat :=
  (if fieldHit m.title tok then 5 else 0) +
  (if fieldHit m.category tok then 6 else 0) +
  4 * topicHits m tok +
  (if keywordHit m tok then 4 else 0) +
  (if descriptionHit m tok then 2 else 0)

/-- Number of `matches[token]` increments contributed by one token. -/
def tokenCount (m : Material) (tok : List Char) : Nat :=
  (if fieldHit m.title tok then 1 else 0) +
  (if fieldHit m.category tok then 1 else 0) +
  topicHits m tok +
  (if keywordHit m tok then 1 else 0) +
  (if descriptionHit m tok then 1 else 0)

/-- Category bonus test of `scoreNCLEXRelevance`:
    `material.category.toLowerCase().includes(category.toLowerCase())`. -/
def categoryBonusHit (category : Option String) (m : Material) : Bool :=
  match category with
  | none => false
  | some c => containsSub (lcChars m.category) (lcChars c)

/-- Upsert-add into the `matches` object, modelled as an association list
    in key-creation order. -/
def bumpMatches : List (List Char × Nat) → List Char → Nat → List (List Char × Nat)
  | [], t, c => [(t, c)]
  | (k, v) :: rest, t, c =>
    if k = t then (k, v + c) :: rest else (k, v) :: bumpMatches rest t c

/-- The token loop of `scoreNCLEXRelevance`, threading the running score
    and the `matches` object. The JS code bumps `matches[token]` once per
    hit field; the net effect per token is a single addition of the total
    hit count, which is what is recorded here. -/
def scoreLoop (m : Material) :
    List (List Char) → Nat → List (List Char × Nat) → Nat × List (List Char × Nat)
  | [], s, mt => (s, mt)
  | t :: ts, s, mt =>
    let c := tokenCount m t
    scoreLoop m ts (s + tokenPoints m t) (if c = 0 then mt else bumpMatches mt t c)

/-- The relevance score of one material (`scoreNCLEXRelevance`, single
    element of the `map`): category bonus, per-token field weights, and a
    combination bonus of `2 * totalMatches` whenever `totalMatches > 1`. -/
def relevanceScore (category : Option String) (toks : List (List Char))
    (m : Material) : Nat :=
  let s0 := if categoryBonusHit category m then 8 else 0
  let r := scoreLoop m toks s0 []
  let total := (r.2.map Prod.snd).sum
  if 1 < total then r.1 + 2 * total else r.1

/-- Full `scoreNCLEXRelevance`: annotate, drop non-positive scores, sort by
    descending score (stable). The `matchedTokens` annotation is not used
    by any caller we verify and is omitted. -/
def scoreNCLEXRelevance (materials : List Material) (toks : List (List Char))
    (category : Option String) : List (Material × Nat) :=
  stableSort (fun a b => b.2 ≤ a.2)
    ((materials.map fun m => (m, relevanceScore category toks m)).filter
      fun x => 0 < x.2)

/-- `getNCLEXFallbackMaterials`: most recently created first (stable sort
    by descending `createdAt`), optionally category-filtered, capped. -/
def getNCLEXFallbackMaterials (store : List Material) (category : Option String)
    (limit : Nat) : List Material :=
  (stableSort (fun a b => b.createdAt ≤ a.createdAt)
    (store.filter fun m =>
      match category with
      | none => true
      | some c => m.category == c)).take limit

/-- One store document matches the primary search query: any token occurs
    in title, topics, description or keywords (all case-insensitive
    substring tests), under the optional exact category filter. -/
def matchesPrimary (category : Option String) (toks : List (List Char))
    (m : Material) : Bool :=
  (match category with
   | none => true
   | some c => m.category == c) &&
  toks.any fun t =>
    fieldHit m.title t || (m.topics.any fun tp => containsSub (lcChars tp) t) ||
      descriptionHit m t || keywordHit m t

/-- One store document matches the retry query (wildcard-wrapped patterns
    are equivalent substring tests; the retry drops the keywords field). -/
def matchesRetry (category : Option String) (toks : List (List Char))
    (m : Material) : Bool :=
  (match category with
   | none => true
   | some c => m.category == c) &&
  toks.any fun t =>
    fieldHit m.title t || (m.topics.any fun tp => containsSub (lcChars tp) t) ||
      descriptionHit m t

/-- The heterogeneous result of `findNCLEXMaterials`: the `/buy` shortcut
    returns a category menu, the scored path returns annotated materials,
    and the zero-token path returns the bare fallback array (which carries
    no `type` tag in the JS code). -/
inductive FindResult where
  | categorySelection (categories : List String)
  | materials (data : List (Material × Nat))
  | fallback (data : List Material)
deriving DecidableEq

/-- `findNCLEXMaterials` over an explicit store. -/
def findNCLEXMaterials (store : List Material) (userQuery : String)
    (category : Option String) (limit : Nat) : FindResult :=
  if containsSub (lcChars userQuery) "/buy".data && category.isNone then
    .categorySelection nclexCategoryNames
  else
    let searchTokens := extractNCLEXSearchTokens userQuery category
    if searchTokens.isEmpty then
      .fallback (getNCLEXFallbackMaterials store category limit)
    else
      let primary := (store.filter (matchesPrimary category searchTokens)).take (limit * 2)
      let results :=
        if primary.isEmpty then
          (store.filter (matchesRetry category searchTokens)).take (limit * 2)
        else primary
      .materials ((scoreNCLEXRelevance results searchTokens category).take limit)

/-! ## Conversational sessions and the purchase flow (`bot/index.js`).
    Sessions are per-user; the map entry for one user is an
    `Option Session`. The JS session objects are heterogeneous records;
    fields absent from a given object are modelled as `none` / `[]`. -/

/-- The `state` discriminator of a session record. -/
inductive SState where
  | nclexPurchase
  | questionGeneration
  | awaitingMaterialSelection
  | awaitingDownload
  | completed
deriving DecidableEq

/-- The `step` field of a session record (purchase steps plus the
    question-generation `ask_topic` step). -/
inductive SStep where
  | categorySelection
  | materialSelection
  | confirmation
  | downloading
  | askTopic
deriving DecidableEq

/-- A session record. -/
structure Session where
  state : SState
  step : Option SStep
  currentCategory : Option String
  selectedMaterial : Option Material
  materials : List Material
  promoCode : Option Nat
deriving DecidableEq

/-- The fresh purchase session written by `/buy` and by the buy-intent
    text branch. -/
def freshPurchaseSession : Session :=
  { state := .nclexPurchase, step := some .categorySelection,
    currentCategory := none, selectedMaterial := none,
    materials := [], promoCode := none }

/-- The fresh question-generation session written by `/questions`. -/
def freshQuestionSession : Session :=
  { state := .questionGeneration, step := some .askTopic,
    currentCategory := none, selectedMaterial := none,
    materials := [], promoCode := none }

/-- A session together with a ghost trace of every candidate list ever
    stored into it during its lifetime (lifetimes end at
    `userSessions.delete`). The ghost is used to state the
    `selectedMaterial` invariant. -/
structure GSession where
  sess : Session
  ever : List Material
deriving DecidableEq

/-- `generatePromoCode` / the inline promo-code expression:
    `Math.floor(100000 + Math.random() * 900000)`, with the random draw
    made explicit as `r` (`r % 900000` models `floor(random * 900000)`). -/
def generatePromoCode (r : Nat) : Nat :=
  100000 + r % 900000

/-- Lower-cased copy of the handler input (`userInput.toLowerCase()`),
    for whole-string comparisons against `"back"` / `"download"`. -/
def lcEq (input : String) (w : String) : Bool :=
  lcChars input == w.data

/-- The numeric category map (`categoryMap`), keyed by the trimmed input. -/
def categoryByNumber (w : List Char) : Option String :=
  if w = "1".data then some "Safe and Effective Care Environment"
  else if w = "2".data then some "Health Promotion and Maintenance"
  else if w = "3".data then some "Psychosocial Integrity"
  else if w = "4".data then some "Physiological Integrity"
  else none

/-- Name-based category match of the purchase flow: the input contains the
    first 20 characters of the category name or its first word
    (case-insensitive). -/
def flowCategoryNameHit (input : String) (c : String) : Bool :=
  containsSub (lcChars input) ((lcChars c).take 20) ||
  containsSub (lcChars input) (lcChars (((splitChars (fun ch => ch == ' ') c.data).headD []).asString))

/-- Category selection of `handleNCLEXPurchaseFlow`: numeric code first,
    then the first category name that matches (`for ... break`). -/
def selectFlowCategory (input : String) : Option String :=
  match categoryByNumber (trimWS input.data) with
  | some c => some c
  | none => nclexCategoryNames.find? (flowCategoryNameHit input)

/-- Replies sent by the purchase-flow handler (identifying which branch
    answered; message formatting is outside the modelled scope). -/
inductive FlowReply where
  | backToCategories
  | materialsShown (materials : List Material) (category : Option String)
  | noMaterials (category : Option String)
  | invalidCategory
  | invalidNumber (len : Nat)
  | confirmationShown (m : Option Material) (promo : Nat)
  | downloadStarted (m : Option Material) (promo : Option Nat)
  | downloadPrompt
  | noReply
deriving DecidableEq

/-- `handleNCLEXPurchaseFlow`. Result `none` means the session was
    deleted. `store` is the catalog, `r` the random draw for the promo
    code, `ever` the ghost trace of the incoming session. -/
def handleNCLEXPurchaseFlow (store : List Material) (r : Nat)
    (sess : Session) (ever : List Material) (input : String) :
    Option GSession × FlowReply :=
  if lcEq input "back" && (sess.step == some .materialSelection) then
    (some ⟨{ sess with step := some .categorySelection, currentCategory := none }, ever⟩,
     .backToCategories)
  else if lcEq input "back" && (sess.step == some .confirmation) then
    -- step back, clear the selection, then re-display the stored list
    -- (`displayNCLEXMaterials` leaves the session alone when the list is
    -- empty, otherwise re-stores the same list).
    let s1 : Session := { sess with step := some .materialSelection, selectedMaterial := none }
    if s1.materials.isEmpty then
      (some ⟨s1, ever⟩, .noMaterials sess.currentCategory)
    else
      (some ⟨s1, ever ++ s1.materials⟩, .materialsShown s1.materials sess.currentCategory)
  else
    match sess.step with
    | some .categorySelection =>
      match selectFlowCategory input with
      | some c =>
        let found := (store.filter fun m => m.category == c).take 10
        if found.isEmpty then
          (some ⟨{ sess with step := some .categorySelection, currentCategory := none }, ever⟩,
           .noMaterials (some c))
        else
          let s2 : Session :=
            { sess with
              step := some .materialSelection
              currentCategory := some c
              materials := found }
          (some ⟨s2, ever ++ found⟩, .materialsShown found (some c))
      | none => (some ⟨sess, ever⟩, .invalidCategory)
    | some .materialSelection =>
      match parseIntJS input with
      | none => (some ⟨sess, ever⟩, .invalidNumber sess.materials.length)
      | some n =>
        if n < 1 || (sess.materials.length : Int) < n then
          (some ⟨sess, ever⟩, .invalidNumber sess.materials.length)
        else
          let sel := sess.materials.get? (n.toNat - 1)
          let promo := generatePromoCode r
          let s2 : Session :=
            { sess with
              selectedMaterial := sel
              step := some .confirmation
              promoCode := some promo }
          (some ⟨s2, ever⟩, .confirmationShown sel promo)
    | some .confirmation =>
      if lcEq input "download" then
        (none, .downloadStarted sess.selectedMaterial sess.promoCode)
      else
        (some ⟨sess, ever⟩, .downloadPrompt)
    | _ => (some ⟨sess, ever⟩, .noReply)

/-! ## File delivery (`sendMaterialFile` / `updateMaterialStats`) -/

/-- The counter update applied to the stored copy of the material:
    `downloads` always; `purchases` and `revenue` only for non-free items,
    with the revenue addition skipped when the price fails to parse. -/
def bumpStats (m : Material) : Material :=
  let m1 := { m with downloads := m.downloads + 1 }
  if m.price ≠ "Free" then
    let m2 := { m1 with purchases := m.purchases + 1 }
    match parseFloatJS m.price with
    | some v => { m2 with revenue := m.revenue + v }
    | none => m2
  else m1

/-- `updateMaterialStats`: re-read the material from the store by id and
    save the bumped copy; `false` (with the store untouched) when the
    record is gone. -/
def updateMaterialStats (store : List Material) (materialId : Nat) :
    Bool × List Material :=
  match store.find? fun m => m.id == materialId with
  | none => (false, store)
  | some _ => (true, store.map fun m => if m.id == materialId then bumpStats m else m)

/-- Telegram transfer ceiling: `50 * 1024 * 1024` bytes. -/
def maxFileSize : Nat := 50 * 1024 * 1024

/-- Outcome of a delivery attempt. -/
inductive SendOutcome where
  | fileNotFound
  | tooLarge
  | sent
deriving DecidableEq

/-- The entry appended to the requesting user's download history. -/
def mkDLEntry (m : Material) : DLEntry :=
  { materialId := m.id, title := m.title, category := m.category, price := m.price }

/-- `sendMaterialFile`: look up the binary by `fileId`; abort on a missing
    file; assemble the bytes and reject on the size ceiling before
    sending; on a successful send update the catalog counters and append
    to the user's download history. The returned store and user reflect
    all mutations (unchanged on the failure paths). -/
def sendMaterialFile (bucket : List GridFile) (store : List Material)
    (user : User) (m : Material) : SendOutcome × List Material × User :=
  match bucket.find? fun f => f.id == m.fileId with
  | none => (.fileNotFound, store, user)
  | some f =>
    if maxFileSize < f.length then (.tooLarge, store, user)
    else
      let store2 := (updateMaterialStats store m.id).2
      let user2 := { user with downloadedMaterials := user.downloadedMaterials ++ [mkDLEntry m] }
      (.sent, store2, user2)

/-! ## Admin HTTP API (`routes` file, NCLEX variant): upload, fetch,
    delete. State carries the catalog, the GridFS bucket and fresh-id
    counters (store-assigned object ids). -/

/-- An uploaded file as the route handler sees it (multer has already
    enforced the PDF-only filter). -/
structure UploadFile where
  originalname : String
  size : Nat
deriving DecidableEq

/-- The multipart fields of `POST /materials/upload`. `none` models an
    absent field; JS falsiness also treats the empty string as missing. -/
structure UploadReq where
  pdfFile : Option UploadFile
  title : Option String
  topics : Option String
  category : Option String
  description : Option String
  keywords : Option String
  price : Option String
  createdBy : Option String
deriving DecidableEq

/-- JS truthiness of an optional string field. -/
def truthyS : Option String → Bool
  | none => false
  | some s => !s.isEmpty

/-- Comma split plus per-piece trim (`s.split(',').map(x => x.trim())`). -/
def splitCommaTrim (s : String) : List String :=
  (splitChars (fun c => c == ',') s.data).map fun w => (trimWS w).asString

/-- Admin API state. -/
structure ApiState where
  materials : List Material
  bucket : List GridFile
  nextFileId : Nat
  nextMatId : Nat
deriving DecidableEq

/-- The category enumeration check of the upload route. -/
def validCategories : List String := nclexCategoryNames

/-- The GridFS record written by a passing upload. -/
def uploadedFileRec (st : ApiState) (req : UploadReq) : GridFile :=
  { id := st.nextFileId
    filename := (req.pdfFile.getD { originalname := "", size := 0 }).originalname
    length := (req.pdfFile.getD { originalname := "", size := 0 }).size }

/-- The catalog record written by a passing upload. -/
def uploadedMaterial (st : ApiState) (now : Nat) (req : UploadReq) : Material :=
  { id := st.nextMatId
    title := req.title.getD ""
    topics := splitCommaTrim (req.topics.getD "")
    category := req.category.getD ""
    description := req.description
    keywords := if truthyS req.keywords then splitCommaTrim (req.keywords.getD "") else []
    price := req.price.getD ""
    fileId := st.nextFileId
    fileName := some (uploadedFileRec st req).filename
    fileSize := (uploadedFileRec st req).length
    downloads := 0
    purchases := 0
    revenue := 0
    createdAt := now }

/-- The state after a passing upload: the bytes land in GridFS, then the
    catalog record referencing them is saved. -/
def uploadSuccess (st : ApiState) (now : Nat) (req : UploadReq) : ApiState :=
  { materials := st.materials ++ [uploadedMaterial st now req]
    bucket := st.bucket ++ [uploadedFileRec st req]
    nextFileId := st.nextFileId + 1
    nextMatId := st.nextMatId + 1 }

/-- `POST /materials/upload` (`now` is the store-assigned creation
    timestamp). Validation happens before any write, so every 400 leaves
    the state untouched. -/
def uploadHandler (st : ApiState) (now : Nat) (req : UploadReq) : Nat × ApiState :=
  if !req.pdfFile.isSome then (400, st)
  else if !truthyS req.title then (400, st)
  else if !truthyS req.topics then (400, st)
  else if !truthyS req.category then (400, st)
  else if !(validCategories.contains (req.category.getD "")) then (400, st)
  else if !truthyS req.price then (400, st)
  else if !(parseFloatJS (req.price.getD "")).isSome && req.price.getD "" ≠ "Free" then (400, st)
  else (201, uploadSuccess st now req)

/-- `GET /materials/:id` (the `data` payload; `none` models the 404). -/
def getMaterialHandler (st : ApiState) (id : Nat) : Option Material :=
  st.materials.find? fun m => m.id == id

/-- `DELETE /materials/:id`: 404 when the record is missing; the GridFS
    delete throws when the binary is missing (caught as a 500, record
    kept); otherwise both the binary and the record are removed. -/
def deleteMaterialHandler (st : ApiState) (id : Nat) : Nat × ApiState :=
  match st.materials.find? fun m => m.id == id with
  | none => (404, st)
  | some m =>
    match st.bucket.find? fun f => f.id == m.fileId with
    | none => (500, st)
    | some _ =>
      (200,
       { st with
         bucket := st.bucket.filter fun f => !(f.id == m.fileId)
         materials := st.materials.filter fun x => !(x.id == id) })

/-! ## Bot text dispatch (`bot.on('text')`), the structured AI responses
    (`getNCLEXAIResponse` / `handleNCLEXPurchase` in `ai.service.js`), and
    the per-user session transition system. External effects (replies,
    file sends, the remote text-generation call) do not touch the session
    and are elided; the catalog `store` and the random draw `r` are
    explicit inputs of each text event. -/

/-- Nonempty all-digit input (`/^[0-9]+$/`). -/
def isAllDigits (w : List Char) : Bool :=
  !w.isEmpty && w.all isDig

/-- Structured result of `getNCLEXAIResponse` as far as the session map is
    concerned; every free-text/clarification/error reply is `other` (the
    bot's `switch` mutates the session only for the three tagged steps). -/
inductive AIResp where
  | categorySelection
  | materialSelection (category : String) (data : List (Material × Nat))
  | confirmation (category : String) (m : Material) (promo : Nat)
  | other
deriving DecidableEq

/-- Category parse of the AI purchase branch: a `1`..`4` code, else the
    last enumeration name whose 20-character lower-case prefix occurs in
    the message (the JS `forEach` keeps overwriting, so the last match
    wins; no first-word test here, unlike the flow handler). -/
def aiSelectedCategory (text : String) : Option String :=
  match categoryByNumber (trimWS text.data) with
  | some c => some c
  | none =>
    (nclexCategoryNames.filter fun c =>
      containsSub (lcChars text) ((lcChars c).take 20)).getLast?

/-- The `context.materials` / `context.currentCategory` /
    `context.selectedMaterial` accessors (`session || {}`). -/
def ctxMaterials : Option Session → List Material
  | none => []
  | some s => s.materials

/-- Context category accessor. -/
def ctxCategory : Option Session → Option String
  | none => none
  | some s => s.currentCategory

/-- Context selected-material accessor. -/
def ctxSelected : Option Session → Option Material
  | none => none
  | some s => s.selectedMaterial

/-- Material parse of the AI purchase branch: an all-digit message indexes
    the context's candidate list (1-based). -/
def aiSelectedMaterial (text : String) (ctx : Option Session) : Option Material :=
  if isAllDigits (trimWS text.data) then
    match parseIntJS text with
    | some n =>
      if 1 ≤ n && n ≤ ((ctxMaterials ctx).length : Int) then
        (ctxMaterials ctx).get? (n.toNat - 1)
      else none
    | none => none
  else none

/-- `handleNCLEXPurchase` (the `ai.service.js` three-step helper). With a
    category but no selection it runs the scoped search with an empty
    query; the empty query has no tokens, so that search returns the bare
    fallback array, which carries no `type === 'materials'` tag — the
    helper therefore lands in its error reply (`other`) on that path. -/
def handleNCLEXPurchaseAI (store : List Material) (r : Nat)
    (category : Option String) (mat : Option Material) : AIResp :=
  match category with
  | none => .categorySelection
  | some c =>
    match mat with
    | none =>
      match findNCLEXMaterials store "" (some c) 10 with
      | .materials data => if data.isEmpty then .other else .materialSelection c data
      | _ => .other
    | some m => .confirmation c m (generatePromoCode r)

/-- `getNCLEXAIResponse`, restricted to its session-relevant shape. -/
def getNCLEXAIResponse (store : List Material) (r : Nat) (text : String)
    (ctx : Option Session) : AIResp :=
  if containsSub (lcChars text) "buy".data ||
      containsSub (lcChars text) "purchase".data ||
      containsSub (lcChars text) "payment".data then
    handleNCLEXPurchaseAI store r
      ((aiSelectedCategory text).orElse fun _ => ctxCategory ctx)
      ((aiSelectedMaterial text ctx).orElse fun _ => ctxSelected ctx)
  else
    match findNCLEXMaterials store text none 10 with
    | .categorySelection _ => .categorySelection
    | _ => .other

/-- The blank `{ state: 'completed' }` record. -/
def completedSession : Session :=
  { state := .completed, step := none, currentCategory := none,
    selectedMaterial := none, materials := [], promoCode := none }

/-- `handleQuestionGeneration`: on the `ask_topic` step the session is
    replaced by the blank completed record. -/
def handleQuestionGeneration (gs : GSession) : Option GSession :=
  if gs.sess.step == some .askTopic then some ⟨completedSession, gs.ever⟩
  else some gs

/-- `handleMaterialSelection` (legacy list-selection handler): a valid
    1-based index moves to `awaiting_download` carrying the selection. -/
def handleMaterialSelection (gs : GSession) (text : String) (r : Nat) :
    Option GSession :=
  match parseIntJS text with
  | none => some gs
  | some n =>
    if n < 1 || (gs.sess.materials.length : Int) < n then some gs
    else
      let s2 : Session :=
        { state := .awaitingDownload, step := none, currentCategory := none,
          selectedMaterial := gs.sess.materials.get? (n.toNat - 1),
          materials := [], promoCode := some (generatePromoCode r) }
      some ⟨s2, gs.ever⟩

/-- `handleDownloadConfirmation`: a message containing `download` (or the
    exact promo code) triggers the send and deletes the session. -/
def handleDownloadConfirmation (gs : GSession) (text : String) : Option GSession :=
  if containsSub (lcChars text) "download".data ||
      (match gs.sess.promoCode with
       | some p => text.data == (Nat.repr p).data
       | none => false) then
    none
  else some gs

/-- The tail of `bot.on('text')` reached when no live session intercepted
    the message (the map entry is empty; `stale` is the local `session`
    variable, possibly a just-deleted completed record). Covers the resume
    keyword, buy-intent detection, practice-question detection, and the
    structured-AI fallback that can create a fresh session. -/
def afterSessionChecks (store : List Material) (r : Nat) (text : String)
    (stale : Option Session) : Option GSession :=
  if lcChars text == "resume".data then none
  else if containsSub (lcChars text) "/buy".data ||
      (containsSub (lcChars text) "buy".data && 10 < text.length) then
    some ⟨freshPurchaseSession, []⟩
  else if containsSub (lcChars text) "practice".data ||
      containsSub (lcChars text) "questions".data ||
      containsSub (lcChars text) "quiz".data then
    none
  else
    match getNCLEXAIResponse store r text stale with
    | .categorySelection => some ⟨freshPurchaseSession, []⟩
    | .materialSelection c data =>
      let mats := data.map Prod.fst
      let s2 : Session :=
        { state := .nclexPurchase, step := some .materialSelection,
          currentCategory := some c, selectedMaterial := none,
          materials := mats, promoCode := none }
      some ⟨s2, mats⟩
    | .confirmation c m promo =>
      let s2 : Session :=
        { state := .nclexPurchase, step := some .confirmation,
          currentCategory := some c, selectedMaterial := some m,
          materials := [], promoCode := some promo }
      some ⟨s2, []⟩
    | .other => none

/-- One inbound text message for a single user (`bot.on('text')`): the
    trimmed text is dispatched on the live session's state; a `completed`
    session is deleted and processing continues against the stale record,
    exactly as in the JS handler. -/
def botText (store : List Material) (r : Nat) (g : Option GSession)
    (text0 : String) : Option GSession :=
  let text := (trimWS text0.data).asString
  match g with
  | some gs =>
    if gs.sess.state == .nclexPurchase then
      (handleNCLEXPurchaseFlow store r gs.sess gs.ever text).1
    else if gs.sess.state == .questionGeneration then
      handleQuestionGeneration gs
    else if gs.sess.state == .awaitingMaterialSelection then
      handleMaterialSelection gs text r
    else if gs.sess.state == .awaitingDownload then
      handleDownloadConfirmation gs text
    else
      afterSessionChecks store r text (some gs.sess)
  | none => afterSessionChecks store r text none

/-- The `/buy` command: overwrite with a fresh purchase session. -/
def botBuyCommand (_g : Option GSession) : Option GSession :=
  some ⟨freshPurchaseSession, []⟩

/-- The `/questions` command: overwrite with a fresh question session. -/
def botQuestionsCommand (_g : Option GSession) : Option GSession :=
  some ⟨freshQuestionSession, []⟩

/-- Reachable states of one user's session slot, starting from the empty
    slot and closed under every session-mutating entry point. -/
inductive Reach : Option GSession → Prop
  | init : Reach none
  | buy {g} : Reach g → Reach (botBuyCommand g)
  | questions {g} : Reach g → Reach (botQuestionsCommand g)
  | text {g} (store : List Material) (r : Nat) (t : String) :
      Reach g → Reach (botText store r g t)

/-! ## Substring-search lemmas -/

theorem startsWith_iff {l w : List Char} :
    startsWith l w = true ↔ ∃ t, l = w ++ t := by
  induction w generalizing l with
  | nil =>
    constructor
    · intro _; exact ⟨l, rfl⟩
    · intro _; cases l <;> simp [startsWith]
  | cons b w ih =>
    cases l with
    | nil => simp [startsWith]
    | cons a l =>
      simp only [startsWith, Bool.and_eq_true, beq_iff_eq, ih, List.cons_append,
        List.cons.injEq]
      constructor
      · rintro ⟨rfl, t, rfl⟩; exact ⟨t, rfl, rfl⟩
      · rintro ⟨t, rfl, rfl⟩; exact ⟨rfl, t, rfl⟩

theorem containsSub_iff {l w : List Char} :
    containsSub l w = true ↔ ∃ s t, l = s ++ w ++ t := by
  induction l with
  | nil =>
    simp only [containsSub, List.isEmpty_iff]
    constructor
    · rintro rfl; exact ⟨[], [], rfl⟩
    · rintro ⟨s, t, h⟩
      rcases List.append_eq_nil.mp h.symm with ⟨h1, h2⟩
      exact (List.append_eq_nil.mp h1).2
  | cons a l ih =>
    simp only [containsSub, Bool.or_eq_true, startsWith_iff, ih]
    constructor
    · rintro (⟨t, h⟩ | ⟨s, t, h⟩)
      · exact ⟨[], t, by simp [h]⟩
      · exact ⟨a :: s, t, by simp [h]⟩
    · rintro ⟨s, t, h⟩
      cases s with
      | nil => exact Or.inl ⟨t, by simpa using h⟩
      | cons x s =>
        right
        rcases List.cons_eq_cons.mp (by simpa using h) with ⟨_, h2⟩
        exact ⟨s, t, by simpa [List.append_assoc] using h2⟩

theorem mem_of_containsSub {l w : List Char} {c : Char}
    (hc : c ∈ w) (h : containsSub l w = true) : c ∈ l := by
  rcases containsSub_iff.mp h with ⟨s, t, rfl⟩
  simp only [List.mem_append]
  exact Or.inl (Or.inr hc)

theorem length_le_of_containsSub {l w : List Char}
    (h : containsSub l w = true) : w.length ≤ l.length := by
  rcases containsSub_iff.mp h with ⟨s, t, rfl⟩
  simp only [List.length_append]
  omega

theorem containsSub_refl (w : List Char) : containsSub w w = true :=
  containsSub_iff.mpr ⟨[], [], by simp⟩

/-- The empty pattern is contained everywhere. -/
theorem containsSub_nil (l : List Char) : containsSub l [] = true := by
  cases l <;> simp [containsSub, startsWith]

/-- A match containing no separator cannot straddle a separator character:
    it lies wholly to the left or wholly to the right of it. -/
theorem containsSub_append_cons {w xs ys : List Char} {c : Char}
    (hc : c ∉ w) (h : containsSub (xs ++ c :: ys) w = true) :
    containsSub xs w = true ∨ containsSub ys w = true := by
  rcases hw0 : w with _ | ⟨b, w'⟩
  · exact Or.inl (containsSub_nil xs)
  subst hw0
  rcases containsSub_iff.mp h with ⟨s, t, hdec⟩
  rcases List.append_eq_append_iff.mp hdec with ⟨u, hu1, hu2⟩ | ⟨u, hu1, hu2⟩
  · -- s ++ w = xs ++ u and c :: ys = u ++ t
    rcases List.append_eq_append_iff.mp hu1 with ⟨v, hv1, hv2⟩ | ⟨v, hv1, hv2⟩
    · -- xs = s ++ v and w = v ++ u
      cases u with
      | nil =>
        refine Or.inl (containsSub_iff.mpr ⟨s, [], ?_⟩)
        rw [List.append_nil] at hv2
        rw [List.append_nil, hv2]
        exact hv1
      | cons u0 u' =>
        exfalso
        rcases List.cons_eq_cons.mp (by simpa using hu2) with ⟨rfl, _⟩
        exact hc (by rw [hv2]; simp)
    · -- s = xs ++ v and u = v ++ w
      rw [hv2] at hu2
      cases v with
      | nil =>
        exfalso
        rcases List.cons_eq_cons.mp (by simpa using hu2) with ⟨rfl, _⟩
        exact hc (List.mem_cons_self _ _)
      | cons v0 v' =>
        rcases List.cons_eq_cons.mp (by simpa using hu2) with ⟨rfl, h2⟩
        exact Or.inr (containsSub_iff.mpr ⟨v', t, by rw [h2]; simp⟩)
  · -- xs = (s ++ w) ++ u : the whole of w sits inside xs
    exact Or.inl (containsSub_iff.mpr ⟨s, u, hu1⟩)

theorem containsSub_reverse_iff {l w : List Char} :
    containsSub l.reverse w.reverse = true ↔ containsSub l w = true := by
  simp only [containsSub_iff]
  constructor
  · rintro ⟨s, t, h⟩
    refine ⟨t.reverse, s.reverse, ?_⟩
    have := congrArg List.reverse h
    simpa [List.append_assoc] using this
  · rintro ⟨s, t, rfl⟩
    exact ⟨t.reverse, s.reverse, by simp [List.append_assoc]⟩

theorem containsSub_dropWhile {w l : List Char}
    (hw : w ≠ []) (hws : ∀ a ∈ w, isWS a = false)
    (h : containsSub l w = true) : containsSub (l.dropWhile isWS) w = true := by
  induction l with
  | nil =>
    exfalso
    exact hw (List.isEmpty_iff.mp (by simpa [containsSub] using h))
  | cons a l ih =>
    by_cases ha : isWS a = true
    · rw [List.dropWhile_cons_of_pos ha]
      rcases Bool.or_eq_true _ _ |>.mp (by simpa [containsSub] using h) with h1 | h2
      · exfalso
        cases w with
        | nil => exact hw rfl
        | cons b w' =>
          rcases startsWith_iff.mp h1 with ⟨t, ht⟩
          have hab : a = b := by simpa using congrArg (fun l => l.head?) ht
          have := hws b (List.mem_cons_self _ _)
          rw [← hab, ha] at this
          exact Bool.true_eq_false.mp this
      · exact ih h2
    · rw [List.dropWhile_cons_of_neg ha]
      exact h

theorem containsSub_trimWS {w l : List Char}
    (hw : w ≠ []) (hws : ∀ a ∈ w, isWS a = false)
    (h : containsSub l w = true) : containsSub (trimWS l) w = true := by
  have h1 := containsSub_dropWhile hw hws h
  have h2 : containsSub (l.dropWhile isWS).reverse w.reverse = true :=
    containsSub_reverse_iff.mpr h1
  have hwr : w.reverse ≠ [] := by simpa using hw
  have hwsr : ∀ a ∈ w.reverse, isWS a = false := by
    intro a ha; exact hws a (List.mem_reverse.mp ha)
  have h3 := containsSub_dropWhile hwr hwsr h2
  have h4 : containsSub ((l.dropWhile isWS).reverse.dropWhile isWS).reverse
      w.reverse.reverse = true := containsSub_reverse_iff.mpr h3
  simpa [trimWS] using h4

/-- A separator-free match inside the split input survives into one of the
    pieces of the split. -/
theorem splitAux_piece {sep : Char → Bool} {w : List Char}
    (hsep : ∀ a ∈ w, sep a = false) :
    ∀ (l acc : List Char), containsSub (acc.reverse ++ l) w = true →
      ∃ p ∈ splitAux sep l acc, containsSub p w = true := by
  intro l
  induction l with
  | nil =>
    intro acc h
    refine ⟨acc.reverse, by simp [splitAux], ?_⟩
    simpa using h
  | cons c cs ih =>
    intro acc h
    by_cases hc : sep c = true
    · have hcw : c ∉ w := by
        intro hmem
        have := hsep c hmem
        rw [hc] at this
        exact Bool.true_eq_false.mp this
      rcases containsSub_append_cons hcw h with h1 | h2
      · exact ⟨acc.reverse, by simp [splitAux, hc], h1⟩
      · rcases ih [] (by simpa using h2) with ⟨p, hp, hcp⟩
        exact ⟨p, by simp [splitAux, hc]; right; exact hp, hcp⟩
    · have heq : acc.reverse ++ c :: cs = (c :: acc).reverse ++ cs := by
        simp
      rw [heq] at h
      rcases ih (c :: acc) h with ⟨p, hp, hcp⟩
      refine ⟨p, ?_, hcp⟩
      simpa [splitAux, hc] using hp

theorem splitChars_piece {sep : Char → Bool} {w l : List Char}
    (hsep : ∀ a ∈ w, sep a = false)
    (h : containsSub l w = true) :
    ∃ p ∈ splitChars sep l, containsSub p w = true :=
  splitAux_piece hsep l [] (by simpa using h)

/-! ## Scoring lemmas and claims C1 / C7 -/

theorem bumpMatches_sum (mt : List (List Char × Nat)) (t : List Char) (c : Nat) :
    ((bumpMatches mt t c).map Prod.snd).sum = (mt.map Prod.snd).sum + c := by
  induction mt with
  | nil => simp [bumpMatches]
  | cons kv rest ih =>
    obtain ⟨k, v⟩ := kv
    by_cases h : k = t
    · simp [bumpMatches, h]
      omega
    · simp [bumpMatches, h, ih]
      omega

theorem scoreLoop_fst (m : Material) (toks : List (List Char)) (s : Nat)
    (mt : List (List Char × Nat)) :
    (scoreLoop m toks s mt).1 = s + (toks.map (tokenPoints m)).sum := by
  induction toks generalizing s mt with
  | nil => simp [scoreLoop]
  | cons t ts ih =>
    simp only [scoreLoop, ih, List.map_cons, List.sum_cons]
    omega

theorem scoreLoop_snd_sum (m : Material) (toks : List (List Char)) (s : Nat)
    (mt : List (List Char × Nat)) :
    ((scoreLoop m toks s mt).2.map Prod.snd).sum =
      (mt.map Prod.snd).sum + (toks.map (tokenCount m)).sum := by
  induction toks generalizing s mt with
  | nil => simp [scoreLoop]
  | cons t ts ih =>
    simp only [scoreLoop, ih, List.map_cons, List.sum_cons]
    by_cases h : tokenCount m t = 0
    · simp [h]
    · rw [if_neg h, bumpMatches_sum]
      omega

/-- Closed form of `relevanceScore`: category bonus plus per-token points,
    with the combination bonus keyed on the total match count. -/
theorem relevanceScore_formula (category : Option String) (toks : List (List Char))
    (m : Material) :
    relevanceScore category toks m =
      if 1 < (toks.map (tokenCount m)).sum then
        (if categoryBonusHit category m then 8 else 0) +
          (toks.map (tokenPoints m)).sum + 2 * (toks.map (tokenCount m)).sum
      else
        (if categoryBonusHit category m then 8 else 0) + (toks.map (tokenPoints m)).sum := by
  simp only [relevanceScore, scoreLoop_fst, scoreLoop_snd_sum, List.map_nil,
    List.sum_nil, Nat.zero_add]

theorem mem_insertLe {α : Type} (le : α → α → Bool) (a x : α) (l : List α) :
    x ∈ insertLe le a l ↔ x = a ∨ x ∈ l := by
  induction l with
  | nil => simp [insertLe]
  | cons b l ih =>
    by_cases h : le a b
    · simp [insertLe, h]
    · simp [insertLe, h, ih]
      tauto

theorem mem_stableSort {α : Type} (le : α → α → Bool) (x : α) (l : List α) :
    x ∈ stableSort le l ↔ x ∈ l := by
  induction l with
  | nil => simp [stableSort]
  | cons a l ih => simp [stableSort, mem_insertLe, ih]

/-- The score C1 claims, taken literally: exact category match for the
    +8 bonus, and a combination bonus gated on more than one distinct
    matched token. -/
def claimedScoreC1 (category : Option String) (toks : List (List Char))
    (m : Material) : Nat :=
  let base :=
    (match category with
     | some c => if m.category = c then 8 else 0
     | none => 0) + (toks.map (tokenPoints m)).sum
  let totalMatchCount := (toks.map (tokenCount m)).sum
  let distinctMatched := (toks.filter fun t => 0 < tokenCount m t).length
  if 1 < distinctMatched then base + 2 * totalMatchCount else base

/-- The score of C1 as amended: the +8 bonus fires when the item category
    contains the supplied category case-insensitively, and the combination
    bonus fires whenever the total match count (counting every field hit)
    exceeds one. -/
def amendedScoreC1 (category : Option String) (toks : List (List Char))
    (m : Material) : Nat :=
  let base :=
    (if categoryBonusHit category m then 8 else 0) + (toks.map (tokenPoints m)).sum
  let totalMatchCount := (toks.map (tokenCount m)).sum
  if 1 < totalMatchCount then base + 2 * totalMatchCount else base

/-- Concrete item for the C1 scenario. -/
def cardiacReviewItem : Material :=
  { id := 1, title := "Cardiac Pharmacology Review", topics := ["Pharmacology"],
    category := "Physiological Integrity", description := none, keywords := [],
    price := "Free", fileId := 1, fileName := none, fileSize := 0,
    downloads := 0, purchases := 0, revenue := 0, createdAt := 0 }

/-- Concrete item refuting the literal C1 formula. -/
def sleepItem : Material :=
  { id := 2, title := "Sleep basics", topics := ["x"],
    category := "Psychosocial Integrity", description := some "sleep hygiene",
    keywords := [], price := "Free", fileId := 2, fileName := none, fileSize := 0,
    downloads := 0, purchases := 0, revenue := 0, createdAt := 0 }

/-- C1 (counterexample): with supplied category `"Psychosocial"` (a proper
    substring of the item category, so no exact match) and the single
    token `sleep` hitting both title and description (one distinct token,
    two total hits), the code computes 19 while the claimed formula gives
    7 — the code keys its +8 bonus on substring containment and its
    combination bonus on the total hit count. -/
theorem claim_C1_cex :
    relevanceScore (some "Psychosocial") ["sleep".data] sleepItem ≠
      claimedScoreC1 (some "Psychosocial") ["sleep".data] sleepItem := by
  decide

/-- C1 (amended): for every candidate item, token list and optional
    category, the computed relevanceScore equals the weight-table formula
    with +8 for a case-insensitive category containment, per-token weights
    5/6/4-per-topic/4/2, and a combination bonus of 2 × totalMatchCount
    whenever totalMatchCount > 1 (total hits, not distinct tokens); every
    item with score ≤ 0 is discarded from the scored result; and the
    "cardiac pharmacology" query scores the "Cardiac Pharmacology Review"
    item at least 14. -/
theorem claim_C1 :
    (∀ (category : Option String) (toks : List (List Char)) (m : Material),
        relevanceScore category toks m = amendedScoreC1 category toks m) ∧
    (∀ (mats : List Material) (toks : List (List Char)) (category : Option String)
        (x : Material × Nat), x ∈ scoreNCLEXRelevance mats toks category → 0 < x.2) ∧
    14 ≤ relevanceScore none (extractNCLEXSearchTokens "cardiac pharmacology" none)
      cardiacReviewItem := by
  refine ⟨?_, ?_, by decide⟩
  · intro category toks m
    rw [relevanceScore_formula]
    simp only [amendedScoreC1]
  · intro mats toks category x hx
    simp only [scoreNCLEXRelevance] at hx
    rw [mem_stableSort] at hx
    simpa using (List.mem_filter.mp hx).2

/-- C1 witness: a concrete member of a concrete scored result has a
    positive score. -/
theorem claim_C1_witness :
    0 < (cardiacReviewItem,
      relevanceScore none ["cardiac".data] cardiacReviewItem).2 :=
  claim_C1.2.1 [cardiacReviewItem] ["cardiac".data] none
    (cardiacReviewItem, relevanceScore none ["cardiac".data] cardiacReviewItem)
    (by decide)

theorem sum_map_le_of_sublist {α : Type} (f : α → Nat) {l₁ l₂ : List α}
    (h : List.Sublist l₁ l₂) : (l₁.map f).sum ≤ (l₂.map f).sum := by
  induction h with
  | slnil => simp
  | cons a _ ih =>
    simp only [List.map_cons, List.sum_cons]
    omega
  | cons₂ a _ ih =>
    simp only [List.map_cons, List.sum_cons]
    omega

/-- C7: the relevance score is monotone under enlarging the token list
    while keeping the existing matches (the per-token contributions are
    nonnegative, and the combination bonus is monotone in the total match
    count). -/
theorem claim_C7 : ∀ (category : Option String) (m : Material)
    (toks₁ toks₂ : List (List Char)), List.Sublist toks₁ toks₂ →
    relevanceScore category toks₁ m ≤ relevanceScore category toks₂ m := by
  intro category m t1 t2 h
  rw [relevanceScore_formula, relevanceScore_formula]
  have hp := sum_map_le_of_sublist (tokenPoints m) h
  have hc := sum_map_le_of_sublist (tokenCount m) h
  by_cases h1 : 1 < (t1.map (tokenCount m)).sum <;>
    by_cases h2 : 1 < (t2.map (tokenCount m)).sum <;>
      simp only [if_pos, if_neg, h1, h2, if_true, if_false] <;> omega

/-- C7 witness: adding the `cardiac` token to the `pharmacology` token
    does not decrease the concrete score. -/
theorem claim_C7_witness :
    relevanceScore none ["pharmacology".data] cardiacReviewItem ≤
      relevanceScore none ["cardiac".data, "pharmacology".data] cardiacReviewItem :=
  claim_C7 none cardiacReviewItem _ _ (List.Sublist.cons _ (List.Sublist.refl _))

/-! ## Claim C6: stop-word-only queries reach the fallback -/

theorem dedupFirst_eq_nil {l : List (List Char)} (h : dedupFirst l = []) :
    l = [] := by
  cases l with
  | nil => rfl
  | cons a as =>
    exfalso
    simp [dedupFirst, dedupAux] at h

/-- If tokenization produced nothing, the raw query cannot contain the
    `/buy` trigger: any occurrence of `/buy` survives trimming, lands
    inside one split piece (none of its characters is a separator), and
    that piece is longer than two characters and — containing a slash —
    is no stop word, so it would have become a token. -/
theorem tokens_nil_no_buy {q : String}
    (h : extractNCLEXSearchTokens q none = []) :
    containsSub (lcChars q) "/buy".data = false := by
  by_contra hb
  rw [Bool.not_eq_false] at hb
  have hq1 : containsSub (trimWS (lcChars q)) "/buy".data = true :=
    containsSub_trimWS (by decide) (by decide) hb
  obtain ⟨p, hp, hcp⟩ := splitChars_piece (show ∀ a ∈ "/buy".data, isSep a = false from by decide) hq1
  have hlen : 2 < p.length := by
    have hle := length_le_of_containsSub hcp
    simp only [List.length] at hle
    omega
  have hslash : '/' ∈ p := mem_of_containsSub (by decide) hcp
  have hstop : stopWordsL.contains p = false := by
    by_contra hmem
    rw [Bool.not_eq_false] at hmem
    have hmem' : p ∈ stopWordsL := by simpa using hmem
    have hall : ∀ s ∈ stopWordsL, '/' ∉ s := by decide
    exact hall p hmem' hslash
  have hwords : extractNCLEXSearchTokens q none ≠ [] := by
    simp only [extractNCLEXSearchTokens, List.nil_append]
    intro hnil
    have hl := dedupFirst_eq_nil hnil
    have hpmem : p ∈ ((((splitChars isSep (trimWS (lcChars q))).filter
          fun w => 2 < w.length).filter
            fun w => !(stopWordsL.contains w)).filter
          fun w => !(([] : List (List Char)).any fun ph =>
            containsSub ph w || containsSub w ph)) := by
      refine List.mem_filter.mpr ⟨List.mem_filter.mpr ⟨List.mem_filter.mpr ⟨hp, ?_⟩, ?_⟩, ?_⟩
      · exact decide_eq_true hlen
      · simp only [hstop, Bool.not_false]
      · simp
    rw [hl] at hpmem
    simp at hpmem
  exact hwords h

/-- C6: whenever tokenization yields zero tokens (in particular for
    stop-word-only queries), `findNCLEXMaterials` returns the fallback
    list — most recently created first, optionally category-filtered,
    capped at the limit — and never an empty-token error. -/
theorem claim_C6 : ∀ (store : List Material) (q : String)
    (category : Option String) (limit : Nat),
    extractNCLEXSearchTokens q category = [] →
    findNCLEXMaterials store q category limit =
      .fallback (getNCLEXFallbackMaterials store category limit) := by
  intro store q category limit h
  cases category with
  | some c =>
    simp [findNCLEXMaterials, h]
  | none =>
    have hbuy := tokens_nil_no_buy h
    simp [findNCLEXMaterials, hbuy, h]

/-- C6 witness: the concrete stop-word-only query `"the and for"`. -/
theorem claim_C6_witness :
    extractNCLEXSearchTokens "the and for" none = [] ∧
    findNCLEXMaterials [] "the and for" none 5 =
      .fallback (getNCLEXFallbackMaterials [] none 5) :=
  ⟨by decide, claim_C6 [] "the and for" none 5 (by decide)⟩

/-! ## Claims C2 / C3: the purchase-flow steps -/

/-- Generic catalog item used in concrete flow scenarios. -/
def mkItem (i : Nat) : Material :=
  { id := i, title := "Item", topics := ["t"], category := "Psychosocial Integrity",
    description := none, keywords := [], price := "Free", fileId := i,
    fileName := none, fileSize := 0, downloads := 0, purchases := 0,
    revenue := 0, createdAt := i }

/-- A five-item candidate list. -/
def fiveItems : List Material :=
  [mkItem 1, mkItem 2, mkItem 3, mkItem 4, mkItem 5]

/-- A session sitting at `material_selection` over the five-item list. -/
def sessFive : Session :=
  { state := .nclexPurchase, step := some .materialSelection,
    currentCategory := some "Psychosocial Integrity",
    selectedMaterial := none, materials := fiveItems, promoCode := none }

/-- C2 (counterexample): the input `"back"` does not parse as an integer,
    yet the handler does not leave the session unchanged — it takes the
    back edge to `category_selection` instead of re-prompting. -/
theorem claim_C2_cex :
    parseIntJS "back" = none ∧
    (handleNCLEXPurchaseFlow [] 0 sessFive [] "back").1 ≠ some ⟨sessFive, []⟩ := by
  decide

/-- C2 (amended): in the `material_selection` step, for every input other
    than the (case-insensitive) back keyword: an input parsing to `n` with
    `1 ≤ n ≤ L` stores the `n`-th candidate (0-based `n − 1`) as
    `selectedMaterial`, sets a promo code and moves to `confirmation`; any
    other input re-prompts with the session unchanged; and the generated
    code lies in `100000`–`999999`. -/
theorem claim_C2 : ∀ (store : List Material) (r : Nat) (sess : Session)
    (ever : List Material) (input : String),
    sess.step = some .materialSelection →
    lcChars input ≠ "back".data →
    ((∀ n : Int, parseIntJS input = some n → 1 ≤ n →
        n ≤ (sess.materials.length : Int) →
        handleNCLEXPurchaseFlow store r sess ever input =
          (some ⟨{ sess with
                    selectedMaterial := sess.materials.get? (n.toNat - 1),
                    step := some .confirmation,
                    promoCode := some (generatePromoCode r) }, ever⟩,
           .confirmationShown (sess.materials.get? (n.toNat - 1)) (generatePromoCode r)) ∧
        (sess.materials.get? (n.toNat - 1)).isSome = true) ∧
     ((parseIntJS input = none ∨
        ∀ n : Int, parseIntJS input = some n →
          n < 1 ∨ (sess.materials.length : Int) < n) →
        handleNCLEXPurchaseFlow store r sess ever input =
          (some ⟨sess, ever⟩, .invalidNumber sess.materials.length)) ∧
     100000 ≤ generatePromoCode r ∧ generatePromoCode r ≤ 999999) := by
  intro store r sess ever input hstep hback
  have hlc : lcEq input "back" = false := by
    simp only [lcEq]
    exact beq_eq_false_iff_ne.mpr hback
  refine ⟨?_, ?_, ?_, ?_⟩
  · intro n hn h1 h2
    have hA : ¬ (n < 1) := by omega
    have hB : ¬ ((sess.materials.length : Int) < n) := by omega
    constructor
    · simp only [handleNCLEXPurchaseFlow, hlc, Bool.false_and, hstep]
      rw [hn]
      simp [hA, hB]
    · cases hget : sess.materials.get? (n.toNat - 1) with
      | some m => rfl
      | none =>
        exfalso
        have := List.get?_eq_none.mp hget
        omega
  · intro hbad
    simp only [handleNCLEXPurchaseFlow, hlc, Bool.false_and, hstep]
    cases hp : parseIntJS input with
    | none => simp
    | some n =>
      rcases hbad with hbad | hbad
      · rw [hp] at hbad
        exact absurd hbad (by simp)
      · rcases hbad n hp with hlt | hgt
        · simp [hlt]
        · have : (decide (n < 1) || decide ((sess.materials.length : Int) < n)) = true := by
            simp [hgt]
          simp [this]
  · simp only [generatePromoCode]
    omega
  · simp only [generatePromoCode]
    omega

/-- C2 witness: against the five-item list, `"0"` and `"99"` are rejected
    with a re-prompt and unchanged session, while `"3"` selects the item
    at 0-based index 2 and moves to confirmation. -/
theorem claim_C2_witness :
    handleNCLEXPurchaseFlow [] 0 sessFive [] "0" =
      (some ⟨sessFive, []⟩, .invalidNumber 5) ∧
    handleNCLEXPurchaseFlow [] 0 sessFive [] "99" =
      (some ⟨sessFive, []⟩, .invalidNumber 5) ∧
    handleNCLEXPurchaseFlow [] 0 sessFive [] "3" =
      (some ⟨{ sessFive with
                selectedMaterial := fiveItems.get? 2,
                step := some .confirmation,
                promoCode := some (generatePromoCode 0) }, []⟩,
       .confirmationShown (fiveItems.get? 2) (generatePromoCode 0)) ∧
    fiveItems.get? 2 = some (mkItem 3) :=
  ⟨(claim_C2 [] 0 sessFive [] "0" rfl (by decide)).2.1
      (Or.inr fun n hn => by
        rw [show parseIntJS "0" = some 0 from by decide] at hn
        cases hn
        omega),
   (claim_C2 [] 0 sessFive [] "99" rfl (by decide)).2.1
      (Or.inr fun n hn => by
        rw [show parseIntJS "99" = some 99 from by decide] at hn
        cases hn
        right
        decide),
   ((claim_C2 [] 0 sessFive [] "3" rfl (by decide)).1 3 (by decide) (by decide)
      (by decide)).1,
   by decide⟩

/-- Modelled from the spec: the candidate list §4.2 prescribes on a
    category match — the output of Relevance Search scoped to that
    category (the step has no residual free-text query, so the search is
    run with the empty query). -/
def relevanceCandidatesSpec (store : List Material) (c : String) : List Material :=
  match findNCLEXMaterials store "" (some c) 10 with
  | .materials data => data.map Prod.fst
  | .fallback data => data
  | .categorySelection _ => []

/-- Fresh category-selection session used in the C3 scenarios. -/
def sessCat : Session := freshPurchaseSession

/-- C3 (counterexample): with two stored items of the selected category
    created at times 1 and 2, the handler stores the plain
    category-filtered store slice `[item 1, item 2]` (insertion order),
    while Relevance Search scoped to that category returns the fallback
    ordering `[item 2, item 1]` (most recent first) — the handler does not
    run Relevance Search. -/
theorem claim_C3_cex :
    ((handleNCLEXPurchaseFlow [mkItem 1, mkItem 2] 0 sessCat [] "3").1.map
        fun g => g.sess.materials) = some [mkItem 1, mkItem 2] ∧
    relevanceCandidatesSpec [mkItem 1, mkItem 2] "Psychosocial Integrity" =
      [mkItem 2, mkItem 1] ∧
    ([mkItem 1, mkItem 2] : List Material) ≠ [mkItem 2, mkItem 1] := by
  decide

/-- C3 (amended): in the `category_selection` step, a numeric code
    `1`–`4` deterministically selects the corresponding enumeration entry
    (`"3"` the third), otherwise the input is fuzzy-matched against the
    category names; on a match the handler runs a plain category-filtered
    catalog query (first 10 items in store order) — zero results reply
    "no materials" and leave the session in `category_selection` with the
    category cleared, otherwise the list is stored and the session moves
    to `material_selection`; on no match the handler re-prompts with the
    session unchanged. -/
theorem claim_C3 : ∀ (store : List Material) (r : Nat) (sess : Session)
    (ever : List Material) (input : String),
    sess.step = some .categorySelection →
    ((∀ c, selectFlowCategory input = some c →
        ((store.filter fun m => m.category == c).take 10 = [] →
          handleNCLEXPurchaseFlow store r sess ever input =
            (some ⟨{ sess with
                      step := some .categorySelection
                      currentCategory := none }, ever⟩,
             .noMaterials (some c))) ∧
        (∀ found, found = (store.filter fun m => m.category == c).take 10 →
          found ≠ [] →
          handleNCLEXPurchaseFlow store r sess ever input =
            (some ⟨{ sess with
                      step := some .materialSelection
                      currentCategory := some c
                      materials := found },
                   ever ++ found⟩,
             .materialsShown found (some c)))) ∧
     (selectFlowCategory input = none →
        handleNCLEXPurchaseFlow store r sess ever input =
          (some ⟨sess, ever⟩, .invalidCategory)) ∧
     selectFlowCategory "3" = some "Psychosocial Integrity" ∧
     nclexCategoryNames.get? 2 = some "Psychosocial Integrity") := by
  intro store r sess ever input hstep
  refine ⟨?_, ?_, by decide, by decide⟩
  · intro c hc
    constructor
    · intro hempty
      simp only [handleNCLEXPurchaseFlow, hstep, hc]
      simp [hempty]
    · intro found hfound hne
      simp only [handleNCLEXPurchaseFlow, hstep, hc]
      rw [← hfound]
      have hfe : found.isEmpty = false := by
        cases found with
        | nil => exact absurd rfl hne
        | cons a l => rfl
      simp [hfe]
  · intro hc
    simp only [handleNCLEXPurchaseFlow, hstep, hc]
    simp

/-- C3 witness: `"3"` selects the third category; over a two-item store
    the candidate list `[item 1, item 2]` is stored and the session moves
    to `material_selection`; a non-matching input re-prompts unchanged. -/
theorem claim_C3_witness :
    handleNCLEXPurchaseFlow [mkItem 1, mkItem 2] 0 sessCat [] "3" =
      (some ⟨{ sessCat with
                step := some .materialSelection
                currentCategory := some "Psychosocial Integrity"
                materials := [mkItem 1, mkItem 2] }, [mkItem 1, mkItem 2]⟩,
       .materialsShown [mkItem 1, mkItem 2] (some "Psychosocial Integrity")) ∧
    handleNCLEXPurchaseFlow [mkItem 1, mkItem 2] 0 sessCat [] "hello" =
      (some ⟨sessCat, []⟩, .invalidCategory) :=
  ⟨by
    have h := ((claim_C3 [mkItem 1, mkItem 2] 0 sessCat [] "3" rfl).1
      "Psychosocial Integrity" (by decide)).2 [mkItem 1, mkItem 2] (by decide) (by decide)
    simpa using h,
   (claim_C3 [mkItem 1, mkItem 2] 0 sessCat [] "hello" rfl).2.1 (by decide)⟩

/-! ## Claims C4 / C5: delivery statistics and the size ceiling -/

theorem bumpStats_free {m : Material} (h : m.price = "Free") :
    bumpStats m = { m with downloads := m.downloads + 1 } := by
  simp [bumpStats, h]

theorem bumpStats_paid_parsed {m : Material} {v : ℚ} (h : ¬ m.price = "Free")
    (hp : parseFloatJS m.price = some v) :
    bumpStats m =
      { m with
        downloads := m.downloads + 1
        purchases := m.purchases + 1
        revenue := m.revenue + v } := by
  simp [bumpStats, h, hp]

theorem bumpStats_paid_nan {m : Material} (h : ¬ m.price = "Free")
    (hp : parseFloatJS m.price = none) :
    bumpStats m =
      { m with
        downloads := m.downloads + 1
        purchases := m.purchases + 1 } := by
  simp [bumpStats, h, hp]

theorem find?_cons_pos {α : Type} (p : α → Bool) (a : α) (l : List α)
    (h : p a = true) : (a :: l).find? p = some a := by
  simp [List.find?, h]

theorem find?_cons_neg {α : Type} (p : α → Bool) (a : α) (l : List α)
    (h : p a = false) : (a :: l).find? p = l.find? p := by
  simp [List.find?, h]

theorem bumpStats_id (x : Material) : (bumpStats x).id = x.id := by
  simp only [bumpStats]
  split
  · split <;> rfl
  · rfl

theorem find?_map_bump {store : List Material} {mid : Nat} {orig : Material}
    (h : store.find? (fun x => x.id == mid) = some orig) :
    ((store.map fun x => if x.id == mid then bumpStats x else x).find?
      fun x => x.id == mid) = some (bumpStats orig) := by
  induction store with
  | nil => simp at h
  | cons a l ih =>
    by_cases ha : (a.id == mid) = true
    · rw [find?_cons_pos (fun x : Material => x.id == mid) a l ha] at h
      cases h
      rw [List.map_cons, if_pos ha]
      refine find?_cons_pos (fun x : Material => x.id == mid) _ _ ?_
      show ((bumpStats orig).id == mid) = true
      rw [bumpStats_id]
      exact ha
    · have ha' : (a.id == mid) = false := Bool.not_eq_true _ |>.mp ha
      rw [find?_cons_neg (fun x : Material => x.id == mid) a l ha'] at h
      rw [List.map_cons, if_neg ha,
        find?_cons_neg (fun x : Material => x.id == mid) a _ ha']
      exact ih h

/-- C4: after every successful send, the stored copy of the item has its
    `downloads` incremented by exactly one; `purchases` is incremented iff
    the price is not the literal `"Free"`, in which case the parsed price
    is added to `revenue` (the addition being skipped when the price fails
    to parse); and exactly one entry is appended to the requesting user's
    download history. -/
theorem claim_C4 : ∀ (bucket : List GridFile) (store : List Material)
    (u : User) (m : Material) (store' : List Material) (u' : User)
    (orig : Material),
    sendMaterialFile bucket store u m = (.sent, store', u') →
    store.find? (fun x => x.id == m.id) = some orig →
    ∃ m', (store'.find? fun x => x.id == m.id) = some m' ∧
      m'.downloads = orig.downloads + 1 ∧
      (¬ orig.price = "Free" ↔ m'.purchases = orig.purchases + 1) ∧
      (orig.price = "Free" → m'.purchases = orig.purchases ∧ m'.revenue = orig.revenue) ∧
      (¬ orig.price = "Free" → ∀ v, parseFloatJS orig.price = some v →
        m'.revenue = orig.revenue + v) ∧
      (¬ orig.price = "Free" → parseFloatJS orig.price = none →
        m'.revenue = orig.revenue) ∧
      u'.downloadedMaterials = u.downloadedMaterials ++ [mkDLEntry m] := by
  intro bucket store u m store' u' orig hsend hfind
  unfold sendMaterialFile at hsend
  split at hsend
  · exact absurd hsend (by simp)
  · split at hsend
    · exact absurd hsend (by simp)
    · simp only [Prod.mk.injEq] at hsend
      obtain ⟨-, hstore', hu'⟩ := hsend
      have hupd : (updateMaterialStats store m.id).2 =
          store.map fun x => if x.id == m.id then bumpStats x else x := by
        simp only [updateMaterialStats, hfind]
      refine ⟨bumpStats orig, ?_, ?_⟩
      · rw [← hstore', hupd]
        exact find?_map_bump hfind
      · by_cases hfree : orig.price = "Free"
        · rw [bumpStats_free hfree]
          refine ⟨rfl, ?_, ?_, ?_, ?_, ?_⟩
          · constructor
            · intro h; exact absurd hfree h
            · intro h
              have h2 : orig.purchases = orig.purchases + 1 := h
              omega
          · intro _; exact ⟨rfl, rfl⟩
          · intro h; exact absurd hfree h
          · intro h; exact absurd hfree h
          · rw [← hu']
        · cases hp : parseFloatJS orig.price with
          | some v =>
            rw [bumpStats_paid_parsed hfree hp]
            refine ⟨rfl, ?_, ?_, ?_, ?_, ?_⟩
            · exact ⟨fun _ => rfl, fun _ => hfree⟩
            · intro h; exact absurd h hfree
            · intro _ w hw
              cases hw
              rfl
            · intro _ hw
              cases hw
            · rw [← hu']
          | none =>
            rw [bumpStats_paid_nan hfree hp]
            refine ⟨rfl, ?_, ?_, ?_, ?_, ?_⟩
            · exact ⟨fun _ => rfl, fun _ => hfree⟩
            · intro h; exact absurd h hfree
            · intro _ w hw
              cases hw
            · intro _ _; rfl
            · rw [← hu']

/-- The stored binary used in the delivery witnesses. -/
def gfile1 : GridFile := { id := 1, filename := "a.pdf", length := 100 }

/-- The requesting user of the delivery witnesses. -/
def user0 : User := { telegramId := "u1", name := "n", downloadedMaterials := [] }

/-- C4 witness: delivering the free item 1 bumps only `downloads` and
    appends one history entry. -/
theorem claim_C4_witness :
    ∃ m', (([bumpStats (mkItem 1)].find? fun x => x.id == (mkItem 1).id) = some m') ∧
      m'.downloads = (mkItem 1).downloads + 1 ∧
      (¬ (mkItem 1).price = "Free" ↔ m'.purchases = (mkItem 1).purchases + 1) ∧
      ((mkItem 1).price = "Free" →
        m'.purchases = (mkItem 1).purchases ∧ m'.revenue = (mkItem 1).revenue) ∧
      (¬ (mkItem 1).price = "Free" → ∀ v, parseFloatJS (mkItem 1).price = some v →
        m'.revenue = (mkItem 1).revenue + v) ∧
      (¬ (mkItem 1).price = "Free" → parseFloatJS (mkItem 1).price = none →
        m'.revenue = (mkItem 1).revenue) ∧
      ({ user0 with downloadedMaterials := [mkDLEntry (mkItem 1)] } : User).downloadedMaterials =
        user0.downloadedMaterials ++ [mkDLEntry (mkItem 1)] :=
  claim_C4 [gfile1] [mkItem 1] user0 (mkItem 1) [bumpStats (mkItem 1)]
    { user0 with downloadedMaterials := [mkDLEntry (mkItem 1)] } (mkItem 1)
    (by decide) (by decide)

/-- C5: a file whose assembled size exceeds the fixed 50 MiB ceiling is
    rejected as too large before any send: the outcome is `tooLarge`, no
    file is sent, and the catalog (hence `downloads`, `purchases`,
    `revenue`) and the user record are returned unchanged. -/
theorem claim_C5 : ∀ (bucket : List GridFile) (store : List Material)
    (u : User) (m : Material) (f : GridFile),
    (bucket.find? fun x => x.id == m.fileId) = some f →
    maxFileSize < f.length →
    sendMaterialFile bucket store u m = (.tooLarge, store, u) ∧
    maxFileSize = 50 * 1024 * 1024 := by
  intro bucket store u m f hfind hsize
  refine ⟨?_, rfl⟩
  simp only [sendMaterialFile, hfind]
  rw [if_pos hsize]

/-- C5 witness: a 51 MiB file is rejected and the store entry keeps its
    counters. -/
theorem claim_C5_witness :
    sendMaterialFile [{ id := 1, filename := "big.pdf", length := 51 * 1024 * 1024 }]
        [mkItem 1] user0 (mkItem 1) = (.tooLarge, [mkItem 1], user0) ∧
    maxFileSize = 50 * 1024 * 1024 :=
  claim_C5 [{ id := 1, filename := "big.pdf", length := 51 * 1024 * 1024 }]
    [mkItem 1] user0 (mkItem 1)
    { id := 1, filename := "big.pdf", length := 51 * 1024 * 1024 }
    (by decide) (by decide)

/-! ## Claims C8 / C9: upload validation and the catalog round trip -/

/-- The request-level validity the upload route actually enforces: all
    required fields present (JS-truthy), category in the fixed enum, and a
    price that either parses under `parseFloat` or is the literal
    `"Free"`. -/
def validUploadReq (req : UploadReq) : Bool :=
  req.pdfFile.isSome && truthyS req.title && truthyS req.topics &&
  truthyS req.category && validCategories.contains (req.category.getD "") &&
  truthyS req.price &&
  ((parseFloatJS (req.price.getD "")).isSome || req.price.getD "" == "Free")

/-- Modelled from the spec: a well-formed price is either the literal
    `"Free"` or a non-negative decimal string (digits, optionally a dot
    and more digits). -/
def isNonNegDecimalStr (s : String) : Bool :=
  let ip := s.data.takeWhile isDig
  let rest := s.data.dropWhile isDig
  !ip.isEmpty &&
    (rest.isEmpty ||
      (match rest with
       | '.' :: t => !t.isEmpty && t.all isDig
       | _ => false))

/-- Modelled from the spec: price validation C8 claims. -/
def specPriceWellFormed (s : String) : Bool :=
  s == "Free" || isNonNegDecimalStr s

theorem uploadHandler_400 {st : ApiState} {now : Nat} {req : UploadReq}
    (h : validUploadReq req = false) : uploadHandler st now req = (400, st) := by
  cases hb1 : req.pdfFile.isSome with
  | false => simp [uploadHandler, hb1]
  | true =>
  cases hb2 : truthyS req.title with
  | false => simp [uploadHandler, hb1, hb2]
  | true =>
  cases hb3 : truthyS req.topics with
  | false => simp [uploadHandler, hb1, hb2, hb3]
  | true =>
  cases hb4 : truthyS req.category with
  | false => simp [uploadHandler, hb1, hb2, hb3, hb4]
  | true =>
  cases hb5 : validCategories.contains (req.category.getD "") with
  | false =>
    have hb5' : req.category.getD "" ∉ validCategories := by simpa using hb5
    simp [uploadHandler, hb1, hb2, hb3, hb4, hb5']
  | true =>
  have hb5' : req.category.getD "" ∈ validCategories := by simpa using hb5
  cases hb6 : truthyS req.price with
  | false => simp [uploadHandler, hb1, hb2, hb3, hb4, hb5', hb6]
  | true =>
    have h7 : (parseFloatJS (req.price.getD "")).isSome = false ∧
        (req.price.getD "" == "Free") = false := by
      rw [validUploadReq, hb1, hb2, hb3, hb4, hb5, hb6] at h
      simpa using h
    have h7' : parseFloatJS (req.price.getD "") = none :=
      Option.not_isSome_iff_eq_none.mp (by simp [h7.1])
    have hne : ¬ req.price.getD "" = "Free" := by
      intro hcon
      rw [hcon] at h7
      simpa using h7.2
    simp [uploadHandler, hb1, hb2, hb3, hb4, hb5', hb6, h7', hne]

theorem uploadHandler_201 {st : ApiState} {now : Nat} {req : UploadReq}
    (h : validUploadReq req = true) :
    uploadHandler st now req = (201, uploadSuccess st now req) := by
  rw [validUploadReq] at h
  simp only [Bool.and_eq_true] at h
  obtain ⟨⟨⟨⟨⟨⟨h1, h2⟩, h3⟩, h4⟩, h5⟩, h6⟩, h7⟩ := h
  have h5' : req.category.getD "" ∈ validCategories := by simpa using h5
  have hfail : ¬ (parseFloatJS (req.price.getD "") = none ∧
      ¬ req.price.getD "" = "Free") := by
    rintro ⟨hnone, hne⟩
    rcases Bool.or_eq_true _ _ |>.mp h7 with hp | hp
    · rw [hnone] at hp
      simp at hp
    · exact hne (by simpa using hp)
  simp [uploadHandler, h1, h2, h3, h4, h5', h6, hfail]

/-- Request refuting the literal C8 price validation: everything present
    and a valid category, but the price `"-5"` — not `"Free"` and not a
    non-negative decimal, yet accepted because `parseFloat("-5")`
    succeeds. -/
def cexUploadReq : UploadReq :=
  { pdfFile := some { originalname := "a.pdf", size := 10 }
    title := some "T"
    topics := some "a"
    category := some "Physiological Integrity"
    description := none
    keywords := none
    price := some "-5"
    createdBy := none }

/-- The empty admin-API state. -/
def emptyApiState : ApiState :=
  { materials := [], bucket := [], nextFileId := 0, nextMatId := 0 }

/-- C8 (counterexample): an upload whose price is neither `"Free"` nor a
    non-negative decimal is nonetheless accepted (201) and stored — the
    route only rejects prices on which `parseFloat` fails. -/
theorem claim_C8_cex :
    specPriceWellFormed "-5" = false ∧
    (uploadHandler emptyApiState 0 cexUploadReq).1 = 201 ∧
    (uploadHandler emptyApiState 0 cexUploadReq).2 ≠ emptyApiState := by
  refine ⟨by decide, ?_, ?_⟩
  · rw [uploadHandler_201 (by decide)]
  · rw [uploadHandler_201 (by decide)]
    intro hcon
    have hlen := congrArg (fun s => s.materials.length) hcon
    simp [uploadSuccess, emptyApiState] at hlen

/-- C8 (amended): the upload route responds 400 and mutates no state
    exactly when a required field is missing, the category is outside the
    fixed 4-value enumeration, or the price both fails `parseFloat` and is
    not the literal `"Free"` (so a parsable negative such as `"-5"`
    passes); every upload passing these checks is accepted with 201 and
    stored. -/
theorem claim_C8 : ∀ (st : ApiState) (now : Nat) (req : UploadReq),
    (validUploadReq req = false → uploadHandler st now req = (400, st)) ∧
    (validUploadReq req = true →
      uploadHandler st now req = (201, uploadSuccess st now req) ∧
      (uploadSuccess st now req).materials =
        st.materials ++ [uploadedMaterial st now req]) := by
  intro st now req
  exact ⟨fun h => uploadHandler_400 h, fun h => ⟨uploadHandler_201 h, rfl⟩⟩

/-- A fully valid upload request used by the witnesses. -/
def goodUploadReq : UploadReq :=
  { pdfFile := some { originalname := "b.pdf", size := 7 }
    title := some "Cardiac Review"
    topics := some "cardiac, pharmacology"
    category := some "Physiological Integrity"
    description := some "d"
    keywords := some "heart"
    price := some "Free"
    createdBy := none }

/-- An invalid-category upload request used by the witnesses. -/
def badCategoryReq : UploadReq :=
  { goodUploadReq with category := some "Cardiology" }

/-- C8 witness: the invalid-category request is rejected with 400 and no
    state change; the valid request is accepted and stored. -/
theorem claim_C8_witness :
    uploadHandler emptyApiState 0 badCategoryReq = (400, emptyApiState) ∧
    uploadHandler emptyApiState 0 goodUploadReq =
      (201, uploadSuccess emptyApiState 0 goodUploadReq) :=
  ⟨(claim_C8 emptyApiState 0 badCategoryReq).1 (by decide),
   ((claim_C8 emptyApiState 0 goodUploadReq).2 (by decide)).1⟩

/-- Well-formedness of the admin state: stored ids stay below the
    fresh-id counters. -/
def ApiWF (st : ApiState) : Prop :=
  (∀ m ∈ st.materials, m.id < st.nextMatId) ∧
  (∀ f ∈ st.bucket, f.id < st.nextFileId)

theorem find?_none {α : Type} (p : α → Bool) (l : List α)
    (h : ∀ x ∈ l, p x = false) : l.find? p = none := by
  induction l with
  | nil => rfl
  | cons a t ih =>
    rw [find?_cons_neg p a t (h a (by simp))]
    exact ih fun x hx => h x (by simp [hx])

theorem find?_append_of_none {α : Type} (p : α → Bool) (l1 l2 : List α)
    (h : l1.find? p = none) : (l1 ++ l2).find? p = l2.find? p := by
  induction l1 with
  | nil => rfl
  | cons a t ih =>
    have hpa : p a = false := by
      cases hp : p a with
      | false => rfl
      | true =>
        rw [find?_cons_pos p a t hp] at h
        cases h
    rw [find?_cons_neg p a t hpa] at h
    rw [List.cons_append, find?_cons_neg p a _ hpa]
    exact ih h

/-- C9: uploading then immediately fetching by the assigned id returns
    identical title, category, price and topics; deleting that id removes
    both the catalog record and the referenced binary, leaving neither
    behind. -/
theorem claim_C9 : ∀ (st : ApiState) (now : Nat) (req : UploadReq),
    ApiWF st → validUploadReq req = true →
    uploadHandler st now req = (201, uploadSuccess st now req) ∧
    (∃ mat, getMaterialHandler (uploadSuccess st now req) st.nextMatId = some mat ∧
      mat.title = req.title.getD "" ∧
      mat.category = req.category.getD "" ∧
      mat.price = req.price.getD "" ∧
      mat.topics = splitCommaTrim (req.topics.getD "") ∧
      mat.fileId = st.nextFileId) ∧
    (∃ st2, deleteMaterialHandler (uploadSuccess st now req) st.nextMatId = (200, st2) ∧
      getMaterialHandler st2 st.nextMatId = none ∧
      (st2.bucket.find? fun f => f.id == st.nextFileId) = none) := by
  intro st now req hwf hv
  have hmatsNone : (st.materials.find? fun m => m.id == st.nextMatId) = none := by
    refine find?_none _ _ fun x hx => ?_
    have := hwf.1 x hx
    simp only [beq_eq_false_iff_ne, ne_eq]
    omega
  have hbucketNone : (st.bucket.find? fun f => f.id == st.nextFileId) = none := by
    refine find?_none _ _ fun x hx => ?_
    have := hwf.2 x hx
    simp only [beq_eq_false_iff_ne, ne_eq]
    omega
  have hfindMat : getMaterialHandler (uploadSuccess st now req) st.nextMatId =
      some (uploadedMaterial st now req) := by
    simp only [getMaterialHandler, uploadSuccess]
    rw [find?_append_of_none _ _ _ hmatsNone]
    exact find?_cons_pos _ _ _ (by simp [uploadedMaterial])
  have hfindFile : ((uploadSuccess st now req).bucket.find?
      fun f => f.id == st.nextFileId) = some (uploadedFileRec st req) := by
    simp only [uploadSuccess]
    rw [find?_append_of_none _ _ _ hbucketNone]
    exact find?_cons_pos _ _ _ (by simp [uploadedFileRec])
  refine ⟨uploadHandler_201 hv, ⟨uploadedMaterial st now req, hfindMat,
    rfl, rfl, rfl, rfl, rfl⟩, ?_⟩
  have hfindMat2 : ((uploadSuccess st now req).materials.find?
      fun m => m.id == st.nextMatId) = some (uploadedMaterial st now req) := hfindMat
  have hfindFile2 : ((uploadSuccess st now req).bucket.find?
      fun f => f.id == (uploadedMaterial st now req).fileId) =
        some (uploadedFileRec st req) := hfindFile
  have hdel : deleteMaterialHandler (uploadSuccess st now req) st.nextMatId =
      (200,
       { uploadSuccess st now req with
         bucket := (uploadSuccess st now req).bucket.filter
           fun f => !(f.id == (uploadedMaterial st now req).fileId)
         materials := (uploadSuccess st now req).materials.filter
           fun x => !(x.id == st.nextMatId) }) := by
    simp only [deleteMaterialHandler, hfindMat2, hfindFile2]
  refine ⟨_, hdel, ?_, ?_⟩
  · simp only [getMaterialHandler]
    refine find?_none _ _ fun x hx => ?_
    have hx2 := (List.mem_filter.mp hx).2
    simpa using hx2
  · refine find?_none _ _ fun x hx => ?_
    have hx2 := (List.mem_filter.mp hx).2
    have : (uploadedMaterial st now req).fileId = st.nextFileId := rfl
    rw [this] at hx2
    simpa using hx2

/-- C9 witness: the concrete round trip over the empty state. -/
theorem claim_C9_witness :
    uploadHandler emptyApiState 0 goodUploadReq =
      (201, uploadSuccess emptyApiState 0 goodUploadReq) ∧
    (∃ mat, getMaterialHandler (uploadSuccess emptyApiState 0 goodUploadReq)
        emptyApiState.nextMatId = some mat ∧
      mat.title = goodUploadReq.title.getD "" ∧
      mat.category = goodUploadReq.category.getD "" ∧
      mat.price = goodUploadReq.price.getD "" ∧
      mat.topics = splitCommaTrim (goodUploadReq.topics.getD "") ∧
      mat.fileId = emptyApiState.nextFileId) ∧
    (∃ st2, deleteMaterialHandler (uploadSuccess emptyApiState 0 goodUploadReq)
        emptyApiState.nextMatId = (200, st2) ∧
      getMaterialHandler st2 emptyApiState.nextMatId = none ∧
      (st2.bucket.find? fun f => f.id == emptyApiState.nextFileId) = none) :=
  claim_C9 emptyApiState 0 goodUploadReq
    ⟨fun m hm => by simp [emptyApiState] at hm, fun f hf => by simp [emptyApiState] at hf⟩
    (by decide)

/-! ## Claim C10: the selected-material session invariant -/

/-- Strengthened inductive invariant over one user's session slot: a
    selected material was previously stored in the session's candidate
    lists (the ghost `ever`); the current candidate list is contained in
    the ghost; and completed sessions are blank. -/
def SInv : Option GSession → Prop
  | none => True
  | some g =>
    (∀ m, g.sess.selectedMaterial = some m → m ∈ g.ever) ∧
    (∀ m ∈ g.sess.materials, m ∈ g.ever) ∧
    (g.sess.state = .completed → g.sess.selectedMaterial = none ∧ g.sess.materials = [])

theorem sinv_fresh_purchase : SInv (some ⟨freshPurchaseSession, []⟩) :=
  ⟨fun _ hm => Option.noConfusion hm,
   fun m hm => absurd hm (List.not_mem_nil m),
   fun hc => SState.noConfusion hc⟩

theorem sinv_fresh_question : SInv (some ⟨freshQuestionSession, []⟩) :=
  ⟨fun _ hm => Option.noConfusion hm,
   fun m hm => absurd hm (List.not_mem_nil m),
   fun hc => SState.noConfusion hc⟩

/-- The AI material parse only ever returns an element of the context's
    candidate list. -/
theorem aiSelectedMaterial_mem {text : String} {ctx : Option Session}
    {m : Material} (h : aiSelectedMaterial text ctx = some m) :
    m ∈ ctxMaterials ctx := by
  unfold aiSelectedMaterial at h
  split at h
  · split at h
    · split at h
      · exact List.get?_mem h
      · exact absurd h (by simp)
    · exact absurd h (by simp)
  · exact absurd h (by simp)

/-- With no context selection and no context candidates, the structured AI
    response is never a confirmation directive. -/
theorem getAI_no_confirmation {store : List Material} {r : Nat} {text : String}
    {stale : Option Session} {c : String} {m : Material} {promo : Nat}
    (hsel : ctxSelected stale = none) (hmats : ctxMaterials stale = [])
    (h : getNCLEXAIResponse store r text stale = .confirmation c m promo) :
    False := by
  unfold getNCLEXAIResponse at h
  split at h
  · have hmat : ((aiSelectedMaterial text stale).orElse fun _ => ctxSelected stale) = none := by
      cases ha : aiSelectedMaterial text stale with
      | some x =>
        have hx := aiSelectedMaterial_mem ha
        rw [hmats] at hx
        simp at hx
      | none => simp [Option.orElse, hsel]
    rw [hmat] at h
    unfold handleNCLEXPurchaseAI at h
    split at h
    · simp at h
    · split at h
      · split at h
        · split at h <;> simp at h
        · simp at h
      · contradiction
  · split at h <;> simp at h

theorem sinv_after (store : List Material) (r : Nat) (text : String)
    (stale : Option Session) (hsel : ctxSelected stale = none)
    (hmats : ctxMaterials stale = []) :
    SInv (afterSessionChecks store r text stale) := by
  unfold afterSessionChecks
  split
  · trivial
  · split
    · exact sinv_fresh_purchase
    · split
      · trivial
      · cases hai : getNCLEXAIResponse store r text stale with
        | categorySelection => exact sinv_fresh_purchase
        | materialSelection c data =>
          exact ⟨fun _ hm => Option.noConfusion hm, fun m hm => hm,
            fun hc => SState.noConfusion hc⟩
        | confirmation c m promo =>
          exact (getAI_no_confirmation hsel hmats hai).elim
        | other => trivial

theorem sinv_flow (store : List Material) (r : Nat) (sess : Session)
    (ever : List Material) (input : String)
    (hstate : sess.state = .nclexPurchase)
    (hsel : ∀ m, sess.selectedMaterial = some m → m ∈ ever)
    (hmats : ∀ m ∈ sess.materials, m ∈ ever) :
    SInv (handleNCLEXPurchaseFlow store r sess ever input).1 := by
  have hnc : ¬ sess.state = SState.completed := by
    rw [hstate]
    intro hc
    exact SState.noConfusion hc
  unfold handleNCLEXPurchaseFlow
  split
  · exact ⟨hsel, hmats, fun hc => absurd hc hnc⟩
  · split
    · dsimp only
      split
      · exact ⟨fun m hm => Option.noConfusion hm, hmats, fun hc => absurd hc hnc⟩
      · exact ⟨fun m hm => Option.noConfusion hm,
          fun m hm => List.mem_append.mpr (Or.inr hm),
          fun hc => absurd hc hnc⟩
    · split
      · -- category selection step
        split
        · dsimp only
          split
          · exact ⟨hsel, hmats, fun hc => absurd hc hnc⟩
          · exact ⟨fun m hm => List.mem_append.mpr (Or.inl (hsel m hm)),
              fun m hm => List.mem_append.mpr (Or.inr hm),
              fun hc => absurd hc hnc⟩
        · exact ⟨hsel, hmats, fun hc => absurd hc hnc⟩
      · -- material selection step
        split
        · exact ⟨hsel, hmats, fun hc => absurd hc hnc⟩
        · split
          · exact ⟨hsel, hmats, fun hc => absurd hc hnc⟩
          · exact ⟨fun m hm => hmats m (List.get?_mem hm), hmats,
              fun hc => absurd hc hnc⟩
      · -- confirmation step
        split
        · trivial
        · exact ⟨hsel, hmats, fun hc => absurd hc hnc⟩
      · exact ⟨hsel, hmats, fun hc => absurd hc hnc⟩

theorem sinv_qgen (gs : GSession) (h : SInv (some gs)) :
    SInv (handleQuestionGeneration gs) := by
  unfold handleQuestionGeneration
  split
  · exact ⟨fun _ hm => Option.noConfusion hm,
      fun m hm => absurd hm (List.not_mem_nil m),
      fun _ => ⟨rfl, rfl⟩⟩
  · exact h

theorem sinv_matsel (gs : GSession) (text : String) (r : Nat)
    (h : SInv (some gs)) : SInv (handleMaterialSelection gs text r) := by
  obtain ⟨hsel, hmats, hcomp⟩ := h
  unfold handleMaterialSelection
  split
  · exact ⟨hsel, hmats, hcomp⟩
  · split
    · exact ⟨hsel, hmats, hcomp⟩
    · exact ⟨fun m hm => hmats m (List.get?_mem hm),
        fun m hm => absurd hm (List.not_mem_nil m),
        fun hc => SState.noConfusion hc⟩

theorem sinv_dl (gs : GSession) (text : String) (h : SInv (some gs)) :
    SInv (handleDownloadConfirmation gs text) := by
  unfold handleDownloadConfirmation
  split
  · trivial
  · exact h

theorem sinv_botText (store : List Material) (r : Nat) (g : Option GSession)
    (t : String) (h : SInv g) : SInv (botText store r g t) := by
  unfold botText
  cases g with
  | none => exact sinv_after store r _ none rfl rfl
  | some gs =>
    obtain ⟨hsel, hmats, hcomp⟩ := h
    by_cases h1 : gs.sess.state = SState.nclexPurchase
    · simp only [h1]
      exact sinv_flow store r gs.sess gs.ever _ h1 hsel hmats
    · have h1' : (gs.sess.state == SState.nclexPurchase) = false := by
        simpa using h1
      simp only [h1', Bool.false_eq_true, if_false]
      by_cases h2 : gs.sess.state = SState.questionGeneration
      · simp only [h2]
        exact sinv_qgen gs ⟨hsel, hmats, hcomp⟩
      · have h2' : (gs.sess.state == SState.questionGeneration) = false := by
          simpa using h2
        simp only [h2', Bool.false_eq_true, if_false]
        by_cases h3 : gs.sess.state = SState.awaitingMaterialSelection
        · simp only [h3]
          exact sinv_matsel gs _ r ⟨hsel, hmats, hcomp⟩
        · have h3' : (gs.sess.state == SState.awaitingMaterialSelection) = false := by
            simpa using h3
          simp only [h3', Bool.false_eq_true, if_false]
          by_cases h4 : gs.sess.state = SState.awaitingDownload
          · simp only [h4]
            exact sinv_dl gs _ ⟨hsel, hmats, hcomp⟩
          · have h4' : (gs.sess.state == SState.awaitingDownload) = false := by
              simpa using h4
            simp only [h4', Bool.false_eq_true, if_false]
            have h5 : gs.sess.state = SState.completed := by
              cases hs : gs.sess.state <;> simp_all
            exact sinv_after store r _ (some gs.sess)
              (hcomp h5).1 (hcomp h5).2

/-- C10: on every reachable session state — reachability closing over all
    session-mutating entry points, including sessions created from a
    structured AI directive — a set `selectedMaterial` is an element that
    was previously present in that same session's candidate lists. -/
theorem claim_C10 : ∀ (g : Option GSession), Reach g →
    ∀ (s : Session) (ever : List Material) (m : Material),
      g = some ⟨s, ever⟩ → s.selectedMaterial = some m → m ∈ ever := by
  have key : ∀ g, Reach g → SInv g := by
    intro g hg
    induction hg with
    | init => trivial
    | buy _ _ => exact sinv_fresh_purchase
    | questions _ _ => exact sinv_fresh_question
    | text store r t _ ih => exact sinv_botText store r _ t ih
  intro g hg s ever m hge hm
  have hi := key g hg
  rw [hge] at hi
  exact hi.1 m hm

/-- The single-item store driving the C10 witness. -/
def storeW : List Material := [mkItem 1]

/-- The session after `/buy`, category `"3"`, then selection `"1"`. -/
def sessConfirmed : Session :=
  { state := .nclexPurchase, step := some .confirmation,
    currentCategory := some "Psychosocial Integrity",
    selectedMaterial := some (mkItem 1), materials := [mkItem 1],
    promoCode := some 100000 }

/-- The intermediate session after the category pick. -/
def sessListed : Session :=
  { state := .nclexPurchase, step := some .materialSelection,
    currentCategory := some "Psychosocial Integrity",
    selectedMaterial := none, materials := [mkItem 1], promoCode := none }

/-- C10 witness: a concrete reachable session whose selected material is
    item 1 — reached via `/buy`, then `"3"`, then `"1"` — satisfies the
    invariant: item 1 was stored in the candidate list along the way. -/
theorem claim_C10_witness : mkItem 1 ∈ ([mkItem 1] : List Material) := by
  have h1 : Reach (some ⟨freshPurchaseSession, []⟩) := by
    have h := Reach.buy Reach.init
    simpa [botBuyCommand] using h
  have h2 : Reach (some ⟨sessListed, [mkItem 1]⟩) := by
    have h := Reach.text storeW 0 "3" h1
    rwa [show botText storeW 0 (some ⟨freshPurchaseSession, []⟩) "3" =
      some ⟨sessListed, [mkItem 1]⟩ from by decide] at h
  have h3 : Reach (some ⟨sessConfirmed, [mkItem 1]⟩) := by
    have h := Reach.text storeW 0 "1" h2
    rwa [show botText storeW 0 (some ⟨sessListed, [mkItem 1]⟩) "1" =
      some ⟨sessConfirmed, [mkItem 1]⟩ from by decide] at h
  exact claim_C10 _ h3 sessConfirmed [mkItem 1] (mkItem 1) rfl rfl

end Student
